import Mathlib

/-!
Shallow embedding of the ToolWarehouse mobile storefront client and its
invariant-bearing core: the cart store (`src/contexts/CartContext.tsx`),
the role derivation of the session store (the `AuthProvider` auth-state
callback), and the catalog gateway function `getCategories`.

JavaScript numbers are modelled as rationals (`ℚ`); all arithmetic in the
cart paths is addition and multiplication of short decimals, which IEEE
doubles and `ℚ` agree on in the scenarios of the spec at the level the spec
states them.  `AsyncStorage` is a single slot (the fixed key
`@cart_items`) holding an optional serialized value; `JSON.stringify` /
`JSON.parse` are modelled at the JS-value-tree level by an explicit `Json`
type, an encoder and a decoder, with the string layer treated as the
identity round trip it is for these trees.  Persistence failure is an
explicit boolean on each write, caught exactly where the source catches
it.
-/

/-- A JavaScript value tree, as produced by `JSON.parse` / consumed by
`JSON.stringify`.  Only the constructors the cart snapshot uses. -/
inductive Json where
  | str : String → Json
  | num : ℚ → Json
  | arr : List Json → Json
  | obj : List (String × Json) → Json
deriving Repr

/-- Type `Product` from `src/types/index.ts`: an immutable catalog entry.
`price` and `stock` are JS numbers, modelled as `ℚ`. -/
structure Product where
  id : String
  name : String
  description : String
  price : ℚ
  imageURL : String
  stock : ℚ
  category : String
  createdAt : String
  updatedAt : String
deriving Repr, DecidableEq

/-- Type `CartItem` from `src/types/index.ts`: productId, quantity, and a
denormalized `Product` snapshot captured at add time. -/
structure CartItem where
  productId : String
  quantity : ℚ
  product : Product
deriving Repr, DecidableEq

/-- Encoding of a `Product` as the JS value tree `JSON.stringify` walks. -/
def encodeProduct (p : Product) : Json :=
  .obj [("id", .str p.id), ("name", .str p.name),
        ("description", .str p.description), ("price", .num p.price),
        ("imageURL", .str p.imageURL), ("stock", .num p.stock),
        ("category", .str p.category), ("createdAt", .str p.createdAt),
        ("updatedAt", .str p.updatedAt)]

/-- Decoding of a JS value tree back into a `Product`; `none` when the
tree is not shaped like a serialized `Product`. -/
def decodeProduct : Json → Option Product
  | .obj [("id", .str id), ("name", .str name),
          ("description", .str description), ("price", .num price),
          ("imageURL", .str imageURL), ("stock", .num stock),
          ("category", .str category), ("createdAt", .str createdAt),
          ("updatedAt", .str updatedAt)] =>
      some ⟨id, name, description, price, imageURL, stock, category,
            createdAt, updatedAt⟩
  | _ => none

/-- Encoding of a `CartItem` as a JS value tree. -/
def encodeItem (it : CartItem) : Json :=
  .obj [("productId", .str it.productId), ("quantity", .num it.quantity),
        ("product", encodeProduct it.product)]

/-- Decoding of a JS value tree back into a `CartItem`. -/
def decodeItem : Json → Option CartItem
  | .obj [("productId", .str productId), ("quantity", .num quantity),
          ("product", p)] =>
      (decodeProduct p).map (fun prod => ⟨productId, quantity, prod⟩)
  | _ => none

/-- Encoding of the whole cart snapshot: a serialized array of item
objects, in the in-memory order. -/
def encodeItems (items : List CartItem) : Json :=
  .arr (items.map encodeItem)

/-- Decoding of a list of JS value trees into cart items, all-or-nothing. -/
def decodeItemList : List Json → Option (List CartItem)
  | [] => some []
  | j :: js =>
    match decodeItem j, decodeItemList js with
    | some it, some rest => some (it :: rest)
    | _, _ => none

/-- Decoding of a snapshot tree back into the item list. -/
def decodeItems : Json → Option (List CartItem)
  | .arr js => decodeItemList js
  | _ => none

/-- The state of the cart store: the in-memory `items` collection, the single
durable storage slot under `@cart_items` (`none` = key absent), and the
`console.error` log. -/
structure CartState where
  items : List CartItem
  storage : Option Json
  log : List String
deriving Repr

/-- Model of `AsyncStorage.setItem` on the cart slot: succeeds and overwrites the
slot, or (when `fail`) rejects without touching it. -/
def setItem (fail : Bool) (v : Json) (_st : Option Json) :
    Except String (Option Json) :=
  if fail then .error "setItem rejected" else .ok (some v)

/-- Function `saveCart` from `CartContext.tsx`: serialize the items and write them
to the slot; a write failure is caught and logged, never rethrown, and
leaves the slot as it was. -/
def saveCart (fail : Bool) (cartItems : List CartItem)
    (st : Option Json) : Option Json × List String :=
  match setItem fail (encodeItems cartItems) st with
  | .ok st2 => (st2, [])
  | .error e => (st, ["Error saving cart: " ++ e])

/-- Function `loadCart` from `CartContext.tsx`: read the slot; if a value is
present, parse it into the items (a parse/shape failure is caught and
leaves the initial empty collection); if absent, keep the empty cart. -/
def loadCart (st : Option Json) : List CartItem :=
  match st with
  | none => []
  | some j => (decodeItems j).getD []

/-- Operation `addToCart(product, quantity)`: if a line item with `product.id`
exists, bump its quantity by `quantity` (snapshot untouched); otherwise
append a fresh line item carrying the supplied snapshot.  Then persist. -/
def addToCart (fail : Bool) (product : Product) (quantity : ℚ)
    (s : CartState) : CartState :=
  match s.items.find? (fun item => item.productId == product.id) with
  | some _ =>
      let updatedItems := s.items.map (fun item =>
        if item.productId == product.id then
          { item with quantity := item.quantity + quantity }
        else item)
      let saved := saveCart fail updatedItems s.storage
      ⟨updatedItems, saved.1, s.log ++ saved.2⟩
  | none =>
      let newItems := s.items ++ [⟨product.id, quantity, product⟩]
      let saved := saveCart fail newItems s.storage
      ⟨newItems, saved.1, s.log ++ saved.2⟩

/-- Operation `removeFromCart(productId)`: drop the matching line item (no-op when
absent) and persist. -/
def removeFromCart (fail : Bool) (productId : String)
    (s : CartState) : CartState :=
  let updatedItems := s.items.filter (fun item => item.productId != productId)
  let saved := saveCart fail updatedItems s.storage
  ⟨updatedItems, saved.1, s.log ++ saved.2⟩

/-- Operation `updateQuantity(productId, quantity)`: below 1 it delegates to
`removeFromCart`; otherwise it overwrites the quantity of the matching item
and persists. -/
def updateQuantity (fail : Bool) (productId : String) (quantity : ℚ)
    (s : CartState) : CartState :=
  if quantity < 1 then removeFromCart fail productId s
  else
    let updatedItems := s.items.map (fun item =>
      if item.productId == productId then { item with quantity := quantity }
      else item)
    let saved := saveCart fail updatedItems s.storage
    ⟨updatedItems, saved.1, s.log ++ saved.2⟩

/-- Operation `clearCart()`: empty the collection and remove the storage key
entirely. -/
def clearCart (s : CartState) : CartState :=
  ⟨[], none, s.log⟩

/-- Derived `totalItems`: sum of quantities (a `reduce` with initial 0). -/
def totalItems (s : CartState) : ℚ :=
  s.items.foldl (fun sum item => sum + item.quantity) 0

/-- Derived `totalPrice`: sum of snapshot price × quantity. -/
def totalPrice (s : CartState) : ℚ :=
  s.items.foldl (fun sum item => sum + item.product.price * item.quantity) 0

/-- The freshly constructed cart store before hydration: empty items,
key absent, nothing logged. -/
def initialCart : CartState := ⟨[], none, []⟩

/-- One user intent against the cart store, with the persistence-write
outcome it will encounter. -/
inductive CartOp where
  | add : Bool → Product → ℚ → CartOp
  | remove : Bool → String → CartOp
  | update : Bool → String → ℚ → CartOp
  | clear : CartOp

/-- Interpretation of one intent. -/
def applyOp (s : CartState) : CartOp → CartState
  | .add fail p q => addToCart fail p q s
  | .remove fail pid => removeFromCart fail pid s
  | .update fail pid q => updateQuantity fail pid q s
  | .clear => clearCart s

/-- Interpretation of a sequence of intents, oldest first. -/
def applyOps (ops : List CartOp) (s : CartState) : CartState :=
  ops.foldl applyOp s

/-- A sequence of `addToCart` calls for the same product snapshot, one
per listed quantity, all persistence writes succeeding. -/
def addToCartAll (p : Product) (qs : List ℚ) (s : CartState) : CartState :=
  qs.foldl (fun t q => addToCart false p q t) s

/-- The cart invariant: at most one line item per productId. -/
def UniqueKeys (s : CartState) : Prop :=
  (s.items.map (·.productId)).Nodup

/-- The two role tags of `AuthContext`. -/
inductive Role where
  | mechanic
  | admin
deriving Repr, DecidableEq

/-- Data of a profile document in the Users collection, as `signUp` writes it; the
`role` field may be absent in an arbitrary document (`none`). -/
structure UserDoc where
  name : String
  email : String
  role : Option Role
  createdAt : String
deriving Repr, DecidableEq

/-- The `AuthProvider` auth-state callback from
`src/components/ProductCard.tsx` (AuthProvider): on an identity-change
notification carrying `user`, fetch the `Users` document keyed by the
uid and, if it exists, set the role from its `role` field; if the
document is absent the previous role is left in place; with no identity
the role is set to `none` with no fetch.  Returns the new role state and
the list of document ids fetched. -/
def authStateChanged (store : String → Option UserDoc)
    (user : Option String) (prevRole : Option Role) :
    Option Role × List String :=
  match user with
  | some uid =>
      match store uid with
      | some d => (d.role, [uid])
      | none => (prevRole, [uid])
  | none => (none, [])

/-- Data of a catalog document as Firestore hands it to `getCategories`:
only the `category` field is consulted, and it may be absent. -/
structure CatalogDoc where
  category : Option String
deriving Repr, DecidableEq

/-- JavaScript string comparison (the default of `Array.prototype.sort` on
the strings at hand): lexicographic on code points. -/
def charsLe : List Char → List Char → Bool
  | [], _ => true
  | _ :: _, [] => false
  | a :: as, b :: bs =>
    if a.toNat < b.toNat then true
    else if b.toNat < a.toNat then false
    else charsLe as bs

/-- Lexicographic `≤` on strings, as a Bool. -/
def strLe (a b : String) : Bool := charsLe a.data b.data

/-- Insert a string into a sorted list, keeping it sorted. -/
def insertStr (x : String) : List String → List String
  | [] => [x]
  | y :: ys => if strLe x y then x :: y :: ys else y :: insertStr x ys

/-- Sort a list of strings ascending (the effect of `.sort()` on the
deduplicated category list). -/
def sortStrs : List String → List String
  | [] => []
  | x :: xs => insertStr x (sortStrs xs)

/-- One step of the `Set` accumulation in `getCategories`: add the
`category` value of the document when it is truthy (present and nonempty)
and not yet seen. -/
def collectStep (acc : List String) (d : CatalogDoc) : List String :=
  match d.category with
  | some c => if c ≠ "" then (if c ∈ acc then acc else acc ++ [c]) else acc
  | none => acc

/-- The `Set` accumulation in `getCategories`: walk the documents in
order, adding each truthy `category` value on first sight. -/
def collectCategories (docs : List CatalogDoc) : List String :=
  docs.foldl collectStep []

/-- Function `getCategories` from the product service (source reproduced in
`src/docs/TESTING.md`): collect the distinct truthy category tags over
all catalog documents into a `Set`, then return them as a sorted array. -/
def getCategories (docs : List CatalogDoc) : List String :=
  sortStrs (collectCategories docs)

/-- A concrete catalog entry used to instantiate universally quantified
results. -/
def sampleProduct : Product :=
  ⟨"p1", "Torque Wrench", "1/2 inch drive", 9.99, "https://img/p1.png",
   5, "Hand Tools", "2024-01-01", "2024-01-02"⟩

/-- A second snapshot of the same catalog entry after an external price
change: same id, different price. -/
def repricedProduct : Product :=
  { sampleProduct with price := 20, updatedAt := "2024-02-01" }

/-- A concrete one-line-item cart state. -/
def sampleCart : CartState :=
  ⟨[⟨"p1", 2, sampleProduct⟩], none, []⟩

theorem decodeProduct_encodeProduct (p : Product) :
    decodeProduct (encodeProduct p) = some p := rfl

theorem decodeItem_encodeItem (it : CartItem) :
    decodeItem (encodeItem it) = some it := rfl

theorem decodeItems_encodeItems (items : List CartItem) :
    decodeItems (encodeItems items) = some items := by
  induction items with
  | nil => rfl
  | cons it rest ih =>
      simp only [encodeItems, decodeItems, List.map_cons, decodeItemList,
        decodeItem_encodeItem] at *
      simp [ih]

/-- C4: serializing a cart and rehydrating a fresh store from the same
storage reproduces the in-memory collection exactly, in order. -/
theorem cart_persistence_roundtrip (items : List CartItem)
    (st : Option Json) :
    loadCart ((saveCart false items st).1) = items := by
  simp [saveCart, setItem, loadCart, decodeItems_encodeItems]

/-- C3: for any quantity below 1 (zero, negatives, fractions),
`updateQuantity` is the very same state transformation as
`removeFromCart`: identical in-memory collection, identical persisted
snapshot, identical log. -/
theorem updateQuantity_below_one_eq_remove (fail : Bool)
    (productId : String) (quantity : ℚ) (s : CartState)
    (h : quantity < 1) :
    updateQuantity fail productId quantity s = removeFromCart fail productId s := by
  simp [updateQuantity, h]

theorem updateQuantity_below_one_eq_remove_witness :
    ((0 : ℚ) < 1 ∧
      updateQuantity false "p1" 0 sampleCart = removeFromCart false "p1" sampleCart) ∧
    ((-1 : ℚ) < 1 ∧
      updateQuantity false "p1" (-1) sampleCart = removeFromCart false "p1" sampleCart) :=
  ⟨⟨by decide, updateQuantity_below_one_eq_remove false "p1" 0 sampleCart (by decide)⟩,
   ⟨by decide, updateQuantity_below_one_eq_remove false "p1" (-1) sampleCart (by decide)⟩⟩

/-- C5: after `clearCart` both derived totals are 0, the storage key is
removed outright (`none`, not an empty serialized array), and a fresh
store hydrating from that storage starts empty. -/
theorem clearCart_empties_and_deletes (s : CartState) :
    totalItems (clearCart s) = 0 ∧ totalPrice (clearCart s) = 0 ∧
    (clearCart s).storage = none ∧
    loadCart (clearCart s).storage = [] := by
  refine ⟨rfl, rfl, rfl, rfl⟩

theorem addToCart_items_of_mem (fail : Bool) (p : Product) (q : ℚ)
    (s : CartState) (h : ∃ it ∈ s.items, it.productId = p.id) :
    (addToCart fail p q s).items = s.items.map (fun it =>
      if it.productId == p.id then { it with quantity := it.quantity + q }
      else it) := by
  obtain ⟨it, hmem, hid⟩ := h
  cases hfind : s.items.find? (fun item => item.productId == p.id) with
  | none =>
      rw [List.find?_eq_none] at hfind
      exact absurd (by simpa using hid) (by simpa using hfind it hmem)
  | some c => simp [addToCart, hfind]

theorem addToCart_items_of_not_mem (fail : Bool) (p : Product) (q : ℚ)
    (s : CartState) (h : ∀ it ∈ s.items, it.productId ≠ p.id) :
    (addToCart fail p q s).items = s.items ++ [⟨p.id, q, p⟩] := by
  have hfind : s.items.find? (fun item => item.productId == p.id) = none := by
    rw [List.find?_eq_none]
    intro it hmem
    simpa using h it hmem
  simp [addToCart, hfind]

/-- C2: merging into an existing line item only bumps the
quantity of that item: the map equation below never consults any field of the
supplied snapshot except `id`, so the stored snapshot (price included)
and every other line item are untouched; consequently re-adding a
product after an external price change still totals with the price
captured at the original add. -/
theorem addToCart_merge_frame :
    (∀ (s : CartState) (p : Product) (q : ℚ) (fail : Bool),
      (∃ it ∈ s.items, it.productId = p.id) →
      (addToCart fail p q s).items = s.items.map (fun it =>
        if it.productId == p.id then { it with quantity := it.quantity + q }
        else it)) ∧
    (∀ (p p2 : Product) (q q2 : ℚ), p2.id = p.id →
      totalPrice (addToCart false p2 q2 (addToCart false p q initialCart)) =
        p.price * (q + q2)) := by
  constructor
  · exact fun s p q fail h => addToCart_items_of_mem fail p q s h
  · intro p p2 q q2 hid
    have h1 : (addToCart false p q initialCart).items = [⟨p.id, q, p⟩] := by
      simp [addToCart, initialCart, saveCart, setItem]
    have h2 : (addToCart false p2 q2 (addToCart false p q initialCart)).items =
        [⟨p.id, q + q2, p⟩] := by
      rw [addToCart_items_of_mem false p2 q2 _ ⟨⟨p.id, q, p⟩, by simp [h1], by simp [hid]⟩]
      simp [h1, hid]
    simp [totalPrice, h2]
    try ring

theorem addToCart_merge_frame_witness :
    ((∃ it ∈ sampleCart.items, it.productId = repricedProduct.id) ∧
      (addToCart false repricedProduct 3 sampleCart).items =
        sampleCart.items.map (fun it =>
          if it.productId == repricedProduct.id then
            { it with quantity := it.quantity + 3 }
          else it)) ∧
    (repricedProduct.id = sampleProduct.id ∧
      totalPrice (addToCart false repricedProduct 3
        (addToCart false sampleProduct 1 initialCart)) =
          sampleProduct.price * (1 + 3)) :=
  ⟨⟨⟨⟨"p1", 2, sampleProduct⟩, by simp [sampleCart], rfl⟩,
    addToCart_merge_frame.1 sampleCart repricedProduct 3 false
      ⟨⟨"p1", 2, sampleProduct⟩, by simp [sampleCart], rfl⟩⟩,
   ⟨rfl, addToCart_merge_frame.2 sampleProduct repricedProduct 1 3 rfl⟩⟩

/-- C10: `addToCart` validates nothing: any quantity, zero and negative
integers included, is merged verbatim into an existing line item or
written verbatim into a fresh one, so the public interface can produce
line items with non-positive quantities. -/
theorem addToCart_no_validation (s : CartState) (p : Product) (q : ℤ)
    (fail : Bool) :
    ((∀ it ∈ s.items, it.productId ≠ p.id) →
      (addToCart fail p (q : ℚ) s).items = s.items ++ [⟨p.id, (q : ℚ), p⟩]) ∧
    ((∃ it ∈ s.items, it.productId = p.id) →
      (addToCart fail p (q : ℚ) s).items = s.items.map (fun it =>
        if it.productId == p.id then { it with quantity := it.quantity + (q : ℚ) }
        else it)) :=
  ⟨fun h => addToCart_items_of_not_mem fail p (q : ℚ) s h,
   fun h => addToCart_items_of_mem fail p (q : ℚ) s h⟩

theorem addToCart_no_validation_witness :
    (∀ it ∈ initialCart.items, it.productId ≠ sampleProduct.id) ∧
    (addToCart false sampleProduct ((-3 : ℤ) : ℚ) initialCart).items =
      initialCart.items ++ [⟨sampleProduct.id, ((-3 : ℤ) : ℚ), sampleProduct⟩] :=
  ⟨by simp [initialCart],
   (addToCart_no_validation initialCart sampleProduct (-3) false).1
     (by simp [initialCart])⟩

/-- C6: a persistence-write failure in any of the three cart mutations
is invisible to the caller: the returned in-memory collection is the one
the successful run would produce, the slot keeps its old value, and the
only trace is a log line. -/
theorem cart_mutations_swallow_persistence_errors (s : CartState)
    (p : Product) (q : ℚ) (pid : String) :
    ((addToCart true p q s).items = (addToCart false p q s).items ∧
      (addToCart true p q s).storage = s.storage ∧
      (addToCart true p q s).log = s.log ++ ["Error saving cart: setItem rejected"]) ∧
    ((removeFromCart true pid s).items = (removeFromCart false pid s).items ∧
      (removeFromCart true pid s).storage = s.storage ∧
      (removeFromCart true pid s).log = s.log ++ ["Error saving cart: setItem rejected"]) ∧
    ((updateQuantity true pid q s).items = (updateQuantity false pid q s).items ∧
      (updateQuantity true pid q s).storage = s.storage ∧
      (updateQuantity true pid q s).log = s.log ++ ["Error saving cart: setItem rejected"]) := by
  refine ⟨?_, ?_, ?_⟩
  · cases hfind : s.items.find? (fun item => item.productId == p.id) <;>
      simp [addToCart, hfind, saveCart, setItem]
  · simp [removeFromCart, saveCart, setItem]
  · by_cases hq : q < 1 <;>
      simp [updateQuantity, hq, removeFromCart, saveCart, setItem]

/-- C7: the concrete scenario of the spec, step by step, on the sample
product priced 9.99. -/
theorem concrete_cart_scenario :
    totalItems (addToCart false sampleProduct 2 initialCart) = 2 ∧
    totalPrice (addToCart false sampleProduct 2 initialCart) = 19.98 ∧
    (addToCart false sampleProduct 3 (addToCart false sampleProduct 2 initialCart)).items =
      [⟨"p1", 5, sampleProduct⟩] ∧
    totalItems (addToCart false sampleProduct 3 (addToCart false sampleProduct 2 initialCart)) = 5 ∧
    totalPrice (addToCart false sampleProduct 3 (addToCart false sampleProduct 2 initialCart)) = 49.95 ∧
    (updateQuantity false "p1" 1 (addToCart false sampleProduct 3
      (addToCart false sampleProduct 2 initialCart))).items = [⟨"p1", 1, sampleProduct⟩] ∧
    totalPrice (updateQuantity false "p1" 1 (addToCart false sampleProduct 3
      (addToCart false sampleProduct 2 initialCart))) = 9.99 ∧
    (removeFromCart false "p1" (updateQuantity false "p1" 1 (addToCart false sampleProduct 3
      (addToCart false sampleProduct 2 initialCart)))).items = [] := by
  norm_num [addToCart, updateQuantity, removeFromCart, saveCart, setItem,
    totalItems, totalPrice, initialCart, sampleProduct, List.find?]

theorem addToCartAll_single (p : Product) (qs : List ℚ) :
    ∀ (x : ℚ) (st : Option Json) (lg : List String),
      (addToCartAll p qs ⟨[⟨p.id, x, p⟩], st, lg⟩).items =
        [⟨p.id, x + qs.sum, p⟩] := by
  induction qs with
  | nil => intro x st lg; simp [addToCartAll]
  | cons q rest ih =>
      intro x st lg
      have hstep : addToCart false p q ⟨[⟨p.id, x, p⟩], st, lg⟩ =
          ⟨[⟨p.id, x + q, p⟩], some (encodeItems [⟨p.id, x + q, p⟩]), lg⟩ := by
        simp [addToCart, List.find?, saveCart, setItem]
      have ih2 := ih (x + q) (some (encodeItems [⟨p.id, x + q, p⟩])) lg
      simp only [addToCartAll, List.foldl_cons] at *
      rw [hstep, ih2, add_assoc]
      simp

theorem map_productId_invariant (l : List CartItem) (g : CartItem → CartItem)
    (hg : ∀ it, (g it).productId = it.productId) :
    (l.map g).map (·.productId) = l.map (·.productId) := by
  rw [List.map_map]
  exact List.map_congr_left (fun it _ => hg it)

theorem uniqueKeys_applyOp (s : CartState) (op : CartOp)
    (h : UniqueKeys s) : UniqueKeys (applyOp s op) := by
  cases op with
  | add fail p q =>
      cases hfind : s.items.find? (fun item => item.productId == p.id) with
      | none =>
          rw [List.find?_eq_none] at hfind
          have hnotin : p.id ∉ s.items.map (·.productId) := by
            intro hmem
            obtain ⟨it, hit, hid⟩ := List.mem_map.mp hmem
            exact absurd (by simpa using hid) (by simpa using hfind it hit)
          have : (applyOp s (.add fail p q)).items = s.items ++ [⟨p.id, q, p⟩] := by
            simp [applyOp, addToCart, List.find?_eq_none.mpr hfind]
          unfold UniqueKeys at h ⊢
          rw [this, List.map_append]
          simp [List.nodup_append, h, hnotin]
      | some c =>
          have : (applyOp s (.add fail p q)).items = s.items.map (fun it =>
              if it.productId == p.id then
                { it with quantity := it.quantity + q } else it) := by
            simp [applyOp, addToCart, hfind]
          unfold UniqueKeys
          rw [this, map_productId_invariant]
          · exact h
          · intro it
            by_cases hc : it.productId == p.id <;> simp [hc]
  | remove fail pid =>
      have hsub : (applyOp s (.remove fail pid)).items.Sublist s.items := by
        simp only [applyOp, removeFromCart]
        exact List.filter_sublist s.items
      exact List.Nodup.sublist (hsub.map (·.productId)) h
  | update fail pid q =>
      by_cases hq : q < 1
      · have hsub : (applyOp s (.update fail pid q)).items.Sublist s.items := by
          simp only [applyOp, updateQuantity, if_pos hq, removeFromCart]
          exact List.filter_sublist s.items
        exact List.Nodup.sublist (hsub.map (·.productId)) h
      · have : (applyOp s (.update fail pid q)).items = s.items.map (fun it =>
            if it.productId == pid then { it with quantity := q } else it) := by
          simp [applyOp, updateQuantity, hq]
        unfold UniqueKeys
        rw [this, map_productId_invariant]
        · exact h
        · intro it
          by_cases hc : it.productId == pid <;> simp [hc]
  | clear => simp [applyOp, clearCart, UniqueKeys]

/-- C1: from an empty cart, any nonempty sequence of `addToCart` calls
for one product leaves exactly one line item, holding the sum of the
quantities passed, and `totalItems` equals that sum; moreover every cart
state reachable from the fresh store by any sequence of
add/remove/update/clear intents has at most one line item per
productId. -/
theorem cart_single_key_invariant :
    (∀ (p : Product) (qs : List ℚ), qs ≠ [] →
      (addToCartAll p qs initialCart).items = [⟨p.id, qs.sum, p⟩] ∧
      totalItems (addToCartAll p qs initialCart) = qs.sum) ∧
    (∀ ops : List CartOp, UniqueKeys (applyOps ops initialCart)) := by
  constructor
  · intro p qs hne
    obtain ⟨q, rest, rfl⟩ : ∃ q rest, qs = q :: rest := by
      cases qs with
      | nil => exact absurd rfl hne
      | cons a l => exact ⟨a, l, rfl⟩
    have h0 : addToCart false p q initialCart =
        ⟨[⟨p.id, q, p⟩], some (encodeItems [⟨p.id, q, p⟩]), []⟩ := by
      simp [addToCart, initialCart, saveCart, setItem, List.find?]
    have hsingle := addToCartAll_single p rest q
      (some (encodeItems [⟨p.id, q, p⟩])) []
    have hitems : (addToCartAll p (q :: rest) initialCart).items =
        [⟨p.id, q + rest.sum, p⟩] := by
      simp only [addToCartAll, List.foldl_cons] at *
      rw [h0]
      exact hsingle
    refine ⟨by simpa using hitems, ?_⟩
    simp [totalItems, hitems]
  · intro ops
    have hpres : ∀ s, UniqueKeys s → UniqueKeys (applyOps ops s) := by
      induction ops with
      | nil => intro s h; exact h
      | cons op rest ih =>
          intro s h
          exact ih _ (uniqueKeys_applyOp s op h)
    exact hpres initialCart (by simp [UniqueKeys, initialCart])

theorem cart_single_key_invariant_witness :
    (([2, 3] : List ℚ) ≠ [] ∧
      (addToCartAll sampleProduct [2, 3] initialCart).items =
        [⟨sampleProduct.id, ([2, 3] : List ℚ).sum, sampleProduct⟩] ∧
      totalItems (addToCartAll sampleProduct [2, 3] initialCart) =
        ([2, 3] : List ℚ).sum) ∧
    UniqueKeys (applyOps [.add false sampleProduct 2, .update false "p1" 7,
      .remove false "p1", .clear] initialCart) :=
  ⟨⟨by simp,
    (cart_single_key_invariant.1 sampleProduct [2, 3] (by simp)).1,
    (cart_single_key_invariant.1 sampleProduct [2, 3] (by simp)).2⟩,
   cart_single_key_invariant.2
     [.add false sampleProduct 2, .update false "p1" 7, .remove false "p1", .clear]⟩

/-- A concrete `Users` profile store for instantiating the session-store
results: `u1` has an admin profile, `u2` has a profile without a `role`
field, any other uid has no document. -/
def sampleUserStore : String → Option UserDoc := fun uid =>
  if uid == "u1" then some ⟨"Ana", "ana@tw.app", some .admin, "2024-01-01"⟩
  else if uid == "u2" then some ⟨"Bo", "bo@tw.app", none, "2024-01-02"⟩
  else none

/-- C8: on an identity-change notification with an identity present, the
profile document keyed by that identity is fetched (and nothing else)
and the role is set from its `role` field when the document exists —
`none` when the field is absent; when the document is absent the role
stays at its prior `none`; with no identity, the role becomes `none`
and no fetch happens. -/
theorem authStateChanged_role_derivation
    (store : String → Option UserDoc) (uid : String)
    (prev : Option Role) :
    ((authStateChanged store (some uid) prev).2 = [uid]) ∧
    (∀ d, store uid = some d →
      (authStateChanged store (some uid) prev).1 = d.role) ∧
    (store uid = none → prev = none →
      (authStateChanged store (some uid) prev).1 = none) ∧
    (authStateChanged store none prev = (none, [])) := by
  refine ⟨?_, ?_, ?_, rfl⟩
  · cases hd : store uid <;> simp [authStateChanged, hd]
  · intro d hd; simp [authStateChanged, hd]
  · intro hd hprev; simp [authStateChanged, hd, hprev]

theorem authStateChanged_role_derivation_witness :
    ((authStateChanged sampleUserStore (some "u1") none).2 = ["u1"] ∧
      sampleUserStore "u1" = some ⟨"Ana", "ana@tw.app", some .admin, "2024-01-01"⟩ ∧
      (authStateChanged sampleUserStore (some "u1") none).1 = some .admin) ∧
    (sampleUserStore "u3" = none ∧
      (authStateChanged sampleUserStore (some "u3") none).1 = none) ∧
    (authStateChanged sampleUserStore none (some .mechanic) = (none, [])) :=
  ⟨⟨(authStateChanged_role_derivation sampleUserStore "u1" none).1,
    rfl,
    (authStateChanged_role_derivation sampleUserStore "u1" none).2.1
      ⟨"Ana", "ana@tw.app", some .admin, "2024-01-01"⟩ rfl⟩,
   ⟨rfl,
    (authStateChanged_role_derivation sampleUserStore "u3" none).2.2.1 rfl rfl⟩,
   (authStateChanged_role_derivation sampleUserStore "u1" (some .mechanic)).2.2.2⟩

theorem charsLe_trans : ∀ (as bs cs : List Char),
    charsLe as bs = true → charsLe bs cs = true → charsLe as cs = true := by
  intro as
  induction as with
  | nil => intro bs cs h1 h2; simp [charsLe]
  | cons a as ih =>
      intro bs cs h1 h2
      cases bs with
      | nil => simp [charsLe] at h1
      | cons b bs =>
          cases cs with
          | nil => simp [charsLe] at h2
          | cons c cs =>
              simp only [charsLe] at h1 h2 ⊢
              rcases Nat.lt_trichotomy a.toNat b.toNat with hab | hab | hab
              · rcases Nat.lt_trichotomy b.toNat c.toNat with hbc | hbc | hbc
                · rw [if_pos (by omega)]
                · rw [if_pos (by omega)]
                · rw [if_neg (by omega), if_pos (by omega)] at h2
                  exact absurd h2 (by simp)
              · rcases Nat.lt_trichotomy b.toNat c.toNat with hbc | hbc | hbc
                · rw [if_pos (by omega)]
                · rw [if_neg (by omega), if_neg (by omega)] at h1 h2 ⊢
                  exact ih bs cs h1 h2
                · rw [if_neg (by omega), if_pos (by omega)] at h2
                  exact absurd h2 (by simp)
              · rw [if_neg (by omega), if_pos (by omega)] at h1
                exact absurd h1 (by simp)

theorem charsLe_total : ∀ (as bs : List Char),
    charsLe as bs = true ∨ charsLe bs as = true := by
  intro as
  induction as with
  | nil => intro bs; left; simp [charsLe]
  | cons a as ih =>
      intro bs
      cases bs with
      | nil => right; simp [charsLe]
      | cons b bs =>
          simp only [charsLe]
          rcases Nat.lt_trichotomy a.toNat b.toNat with hab | hab | hab
          · left; rw [if_pos (by omega)]
          · rcases ih bs with h | h
            · left; rw [if_neg (by omega), if_neg (by omega)]; exact h
            · right; rw [if_neg (by omega), if_neg (by omega)]; exact h
          · right; rw [if_pos (by omega)]

theorem strLe_trans (a b c : String) (h1 : strLe a b = true)
    (h2 : strLe b c = true) : strLe a c = true :=
  charsLe_trans a.data b.data c.data h1 h2

theorem strLe_of_not_strLe (a b : String) (h : strLe a b = false) :
    strLe b a = true := by
  rcases charsLe_total a.data b.data with h1 | h1
  · exact absurd h1 (by simp [strLe] at h; simp [h])
  · exact h1

theorem mem_insertStr (a x : String) (l : List String) :
    a ∈ insertStr x l ↔ a = x ∨ a ∈ l := by
  induction l with
  | nil => simp [insertStr]
  | cons y ys ih =>
      by_cases hxy : strLe x y = true
      · simp [insertStr, hxy]
      · simp only [insertStr, if_neg hxy, List.mem_cons, ih]
        tauto

theorem pairwise_insertStr (x : String) (l : List String)
    (h : List.Pairwise (fun a b => strLe a b = true) l) :
    List.Pairwise (fun a b => strLe a b = true) (insertStr x l) := by
  induction l with
  | nil => simp [insertStr]
  | cons y ys ih =>
      rcases List.pairwise_cons.mp h with ⟨hy, hys⟩
      by_cases hxy : strLe x y = true
      · rw [insertStr, if_pos hxy]
        refine List.pairwise_cons.mpr ⟨?_, h⟩
        intro b hb
        rcases List.mem_cons.mp hb with rfl | hb
        · exact hxy
        · exact strLe_trans x y b hxy (hy b hb)
      · rw [insertStr, if_neg hxy]
        refine List.pairwise_cons.mpr ⟨?_, ih hys⟩
        intro b hb
        rcases (mem_insertStr b x ys).mp hb with hbx | hb
        · rw [hbx]
          exact strLe_of_not_strLe x y (by simpa using hxy)
        · exact hy b hb

theorem nodup_insertStr (x : String) (l : List String)
    (hx : x ∉ l) (h : l.Nodup) : (insertStr x l).Nodup := by
  induction l with
  | nil => simp [insertStr]
  | cons y ys ih =>
      rcases List.nodup_cons.mp h with ⟨hy, hys⟩
      have hxy2 : x ≠ y := fun hcontr => hx (hcontr ▸ List.mem_cons_self y ys)
      have hxys : x ∉ ys := fun hcontr => hx (List.mem_cons_of_mem y hcontr)
      by_cases hxy : strLe x y = true
      · rw [insertStr, if_pos hxy]
        refine List.nodup_cons.mpr ⟨?_, h⟩
        simp only [List.mem_cons]
        rintro (rfl | hin)
        · exact hxy2 rfl
        · exact hxys hin
      · rw [insertStr, if_neg hxy]
        refine List.nodup_cons.mpr ⟨?_, ih hxys hys⟩
        intro hin
        rcases (mem_insertStr y x ys).mp hin with rfl | hin
        · exact hxy2 rfl
        · exact hy hin

theorem mem_sortStrs (a : String) (l : List String) :
    a ∈ sortStrs l ↔ a ∈ l := by
  induction l with
  | nil => simp [sortStrs]
  | cons x xs ih =>
      simp only [sortStrs, mem_insertStr, ih, List.mem_cons]

theorem pairwise_sortStrs (l : List String) :
    List.Pairwise (fun a b => strLe a b = true) (sortStrs l) := by
  induction l with
  | nil => simp [sortStrs]
  | cons x xs ih => exact pairwise_insertStr x (sortStrs xs) ih

theorem nodup_sortStrs (l : List String) (h : l.Nodup) :
    (sortStrs l).Nodup := by
  induction l with
  | nil => simp [sortStrs]
  | cons x xs ih =>
      rcases List.nodup_cons.mp h with ⟨hx, hxs⟩
      exact nodup_insertStr x (sortStrs xs)
        (fun hc => hx ((mem_sortStrs x xs).mp hc)) (ih hxs)

theorem mem_collectStep (acc : List String) (d : CatalogDoc) (a : String) :
    a ∈ collectStep acc d ↔ a ∈ acc ∨ (d.category = some a ∧ a ≠ "") := by
  cases hd : d.category with
  | none => simp [collectStep, hd]
  | some c =>
      by_cases hc : c = ""
      · subst hc
        simp only [collectStep, hd, ne_eq, not_true_eq_false, if_false]
        constructor
        · exact Or.inl
        · rintro (ha | ⟨h1, h2⟩)
          · exact ha
          · exact absurd (Option.some_inj.mp h1).symm h2
      · by_cases hmem : c ∈ acc
        · simp only [collectStep, hd, ne_eq, hc, not_false_eq_true, if_true,
            if_pos hmem]
          constructor
          · exact Or.inl
          · rintro (ha | ⟨h1, h2⟩)
            · exact ha
            · rwa [Option.some_inj.mp h1] at hmem
        · simp only [collectStep, hd, ne_eq, hc, not_false_eq_true, if_true,
            if_neg hmem, List.mem_append, List.mem_singleton]
          constructor
          · rintro (ha | rfl)
            · exact Or.inl ha
            · exact Or.inr ⟨rfl, hc⟩
          · rintro (ha | ⟨h1, h2⟩)
            · exact Or.inl ha
            · exact Or.inr (Option.some_inj.mp h1).symm

theorem mem_collect_aux (docs : List CatalogDoc) (a : String) :
    ∀ acc : List String,
      (a ∈ docs.foldl collectStep acc ↔
        a ∈ acc ∨ ∃ d ∈ docs, d.category = some a ∧ a ≠ "") := by
  induction docs with
  | nil => intro acc; simp
  | cons d ds ih =>
      intro acc
      rw [List.foldl_cons, ih (collectStep acc d), mem_collectStep]
      constructor
      · rintro ((ha | hda) | ⟨d2, hd2, h2⟩)
        · exact Or.inl ha
        · exact Or.inr ⟨d, List.mem_cons_self d ds, hda⟩
        · exact Or.inr ⟨d2, List.mem_cons_of_mem d hd2, h2⟩
      · rintro (ha | ⟨d2, hd2, h2⟩)
        · exact Or.inl (Or.inl ha)
        · rcases List.mem_cons.mp hd2 with hdd | hdd
          · exact Or.inl (Or.inr (hdd ▸ h2))
          · exact Or.inr ⟨d2, hdd, h2⟩

theorem nodup_collectStep (acc : List String) (d : CatalogDoc)
    (h : acc.Nodup) : (collectStep acc d).Nodup := by
  cases hd : d.category with
  | none => simpa [collectStep, hd] using h
  | some c =>
      by_cases hc : c = ""
      · subst hc
        simpa [collectStep, hd] using h
      · by_cases hmem : c ∈ acc
        · simpa [collectStep, hd, hc, hmem] using h
        · simp only [collectStep, hd, ne_eq, hc, not_false_eq_true, if_true,
            if_neg hmem]
          simp [List.nodup_append, h, hmem]

theorem nodup_collect_aux (docs : List CatalogDoc) :
    ∀ acc : List String, acc.Nodup → (docs.foldl collectStep acc).Nodup := by
  induction docs with
  | nil => intro acc h; simpa using h
  | cons d ds ih =>
      intro acc h
      rw [List.foldl_cons]
      exact ih (collectStep acc d) (nodup_collectStep acc d h)

/-- A concrete catalog for instantiating the category results: three
documents carrying two distinct tags. -/
def catalogSample : List CatalogDoc :=
  [⟨some "Power Tools"⟩, ⟨some "Hand Tools"⟩, ⟨some "Hand Tools"⟩]

/-- C9: over a catalog whose documents each carry a category tag,
`getCategories` returns exactly the distinct set of tags observed across
all documents — each tag once, membership characterised by existence of
a document carrying it — in ascending lexicographic order. -/
theorem getCategories_distinct_sorted (docs : List CatalogDoc)
    (h : ∀ d ∈ docs, ∃ c, d.category = some c ∧ c ≠ "") :
    List.Pairwise (fun a b => strLe a b = true) (getCategories docs) ∧
    (getCategories docs).Nodup ∧
    (∀ a, a ∈ getCategories docs ↔ ∃ d ∈ docs, d.category = some a) := by
  refine ⟨pairwise_sortStrs _, nodup_sortStrs _ ?_, ?_⟩
  · exact nodup_collect_aux docs [] List.nodup_nil
  · intro a
    rw [getCategories, mem_sortStrs, collectCategories, mem_collect_aux]
    constructor
    · rintro (ha | ⟨d, hd, hcat, hne⟩)
      · exact absurd ha (List.not_mem_nil a)
      · exact ⟨d, hd, hcat⟩
    · rintro ⟨d, hd, hcat⟩
      obtain ⟨c, hcat2, hcne⟩ := h d hd
      rw [hcat] at hcat2
      right
      exact ⟨d, hd, hcat, (Option.some_inj.mp hcat2) ▸ hcne⟩

theorem getCategories_distinct_sorted_witness :
    (∀ d ∈ catalogSample, ∃ c, d.category = some c ∧ c ≠ "") ∧
    (List.Pairwise (fun a b => strLe a b = true) (getCategories catalogSample) ∧
      (getCategories catalogSample).Nodup ∧
      (∀ a, a ∈ getCategories catalogSample ↔
        ∃ d ∈ catalogSample, d.category = some a)) ∧
    getCategories catalogSample = ["Hand Tools", "Power Tools"] := by
  have hyp : ∀ d ∈ catalogSample, ∃ c, d.category = some c ∧ c ≠ "" := by
    intro d hd
    simp only [catalogSample, List.mem_cons, List.not_mem_nil, or_false] at hd
    rcases hd with rfl | rfl | rfl
    · exact ⟨"Power Tools", rfl, by decide⟩
    · exact ⟨"Hand Tools", rfl, by decide⟩
    · exact ⟨"Hand Tools", rfl, by decide⟩
  exact ⟨hyp, getCategories_distinct_sorted catalogSample hyp, by decide⟩
